import Mathlib

/-!
Verification development for the DNS client transport core (`client.go`).

The Go source is shallowly embedded: byte slices become `List Nat`, the
`net.Conn` stream transport becomes an explicit state (remaining incoming
bytes plus a per-call delivery schedule modelling partial reads/writes),
Go errors become an explicit `Err` inductive, and machine integers become
`Nat` with explicit `% 2 ^ 16` where the code truncates to `uint16`.
All claims under study concern the stream (`*net.TCPConn`) arm of the
type-switches in `Conn.Read` / `Conn.Write`, so the datagram arm of those
switches is not modelled.
-/

/-- Errors of the client core.  `eof` stands for any underlying transport
I/O error (`io.EOF` et al.); `shortBuffer` is `io.ErrShortBuffer`;
`shortRead` is `ErrShortRead`; `connEmpty` is `ErrConnEmpty`; `errSecret`
is `ErrSecret` (TSIG secret missing); `errSig` is a TSIG verification
failure; `errUnpack` / `errPack` / `errGen` are `Msg.Unpack`, `Msg.Pack`
and `TsigGenerate` failures; `dialFail` is a dial error. -/
inductive Err where
  | eof
  | shortBuffer
  | shortRead
  | connEmpty
  | errSecret
  | errSig
  | errUnpack
  | errPack
  | errGen
  | dialFail
  deriving DecidableEq, Repr

/-- Outgoing side of a stream transport: bytes accepted so far (`wire`)
and a schedule of per-call caps modelling partial writes.  A schedule
entry `0` makes the next write call fail; `c+1` caps the next call at
`c+1` bytes; an exhausted schedule accepts everything. -/
structure WireState where
  wire : List Nat
  sched : List Nat
  deriving DecidableEq, Repr

/-- One call to the underlying transport's `Write`: accepts a (possibly
partial) chunk of `bytes` according to the head of the schedule. -/
def netWrite (s : WireState) (bytes : List Nat) : Except Err (Nat × WireState) :=
  match s.sched with
  | [] => Except.ok (bytes.length, ⟨s.wire ++ bytes, []⟩)
  | 0 :: _ => Except.error Err.eof
  | (c + 1) :: rest =>
      let k := min (c + 1) bytes.length
      Except.ok (k, ⟨s.wire ++ bytes.take k, rest⟩)

/-- Big-endian bytes of a `uint16` value, as produced by `packUint16`:
high byte `byte(v >> 8)`, low byte `byte(v)`. -/
def packUint16 (v : Nat) : List Nat :=
  [(v / 256) % 256, v % 256]

/-- Embedding of `Conn.Write` (client.go:230-255), stream arm.  Rejects
payloads shorter than 2 bytes with `shortBuffer`; otherwise prepends the
2-byte big-endian length `uint16(len(p))` (the length reduced mod `2^16`)
and issues at most two transport write calls: one for the whole frame and,
if that one was short, one more for the remainder. -/
def connWrite (s : WireState) (p : List Nat) : Nat × Option Err × WireState :=
  if p.length < 2 then (0, some Err.shortBuffer, s)
  else
    let q := packUint16 (p.length % 65536) ++ p
    match netWrite s q with
    | Except.error e => (0, some e, s)
    | Except.ok (n, s1) =>
        if n < q.length then
          match netWrite s1 (q.drop n) with
          | Except.error e => (n, some e, s1)
          | Except.ok (j, s2) => (n + j, none, s2)
        else (n, none, s1)

/-- The full frame `Conn.Write` intends to put on the wire for payload
`p`: 2-byte big-endian length (mod `2^16`) followed by the payload. -/
def frameOf (p : List Nat) : List Nat :=
  packUint16 (p.length % 65536) ++ p

/-- Incoming side of a stream transport: the bytes still to be delivered
(`data`) and a schedule of per-call caps modelling partial reads (head
`c` caps the next read call at `max 1 c` bytes; an exhausted schedule
delivers as much as requested).  A read call on exhausted `data` fails
(`eof`); otherwise it delivers at least one byte, as a blocking stream
read does. -/
structure NetState where
  data : List Nat
  sched : List Nat
  deriving DecidableEq, Repr

/-- One call to the underlying transport's `Read`, asked for `want`
bytes: delivers between 1 and `want` bytes of `data` (capped by the
schedule head), or fails if no data remains. -/
def netRead (s : NetState) (want : Nat) : Except Err (List Nat × NetState) :=
  match s.data with
  | [] => Except.error Err.eof
  | _ :: _ =>
      let limit := match s.sched with
        | [] => want
        | c :: _ => min (max 1 c) want
      let k := min limit s.data.length
      Except.ok (s.data.take k, ⟨s.data.drop k, s.sched.tail⟩)

/-- Overwrite the bytes of buffer `p` starting at offset `i` with `a`,
i.e. the effect of a read call filling the slice `p[i:i+len(a)]`. -/
def writeAt (p : List Nat) (i : Nat) (a : List Nat) : List Nat :=
  p.take i ++ a ++ p.drop (i + a.length)

/-- The partial-read loop of `Conn.Read` (client.go:180-192): keep
issuing read calls for `p[i:l]` until `i` reaches `l` or a call fails.
`fuel` bounds the iteration count for termination; every successful call
delivers at least one byte, so fuel `l - i` always suffices (the
fuel-exhausted branch is unreachable then, see `readLoop_spec`).
Returns the final byte count, the final buffer, and the error if any. -/
def readLoop : Nat → NetState → List Nat → Nat → Nat → Nat × List Nat × Option Err
  | 0, _, p, i, l => if i < l then (i, p, some Err.eof) else (i, p, none)
  | Nat.succ fuel, s, p, i, l =>
      if i < l then
        match netRead s (l - i) with
        | Except.error e => (i, p, some e)
        | Except.ok (bytes, s1) => readLoop fuel s1 (writeAt p i bytes) (i + bytes.length) l
      else (i, p, none)

/-- Embedding of `Conn.Read` (client.go:161-201), stream arm.  Returns
the byte count `n`, the buffer contents after the call, and the error if
any.  One read call fetches the 2-byte big-endian length prefix into
`p[0:2]` (if that call delivers fewer than 2 bytes with no error, `Read`
returns that count with no error — it does not loop on the prefix); a
zero advertised length is `shortRead`; an advertised length exceeding
`len(p)` is `shortBuffer` returning the advertised length; otherwise the
payload is read into `p[0:l]`, looping on partial reads. -/
def connRead (conn : Option NetState) (p : List Nat) : Nat × List Nat × Option Err :=
  match conn with
  | none => (0, p, some Err.connEmpty)
  | some s =>
      if p.length < 2 then (0, p, some Err.shortBuffer)
      else
        match netRead s 2 with
        | Except.error e => (0, p, some e)
        | Except.ok (bytes, s1) =>
            let p1 := writeAt p 0 bytes
            if bytes.length ≠ 2 then (bytes.length, p1, none)
            else
              let l := 256 * p1.getD 0 0 + p1.getD 1 0
              if l = 0 then (0, p1, some Err.shortRead)
              else if p.length < l then (l, p1, some Err.shortBuffer)
              else readLoop l s1 p1 0 l

/-- One entry of the question section of a DNS message: `Name`, `Qtype`,
`Qclass` (the numeric codes modelled as `Nat`). -/
structure Question where
  name : String
  qtype : Nat
  qclass : Nat
  deriving DecidableEq, Repr

/-- The part of a `Msg` the client core inspects: its question section
and, when the message carries a TSIG record (`m.IsTsig() != nil`), the
owner name of that record (`t.Hdr.Name`).  The wire encoding and the
remaining fields are external collaborators. -/
structure Msg where
  question : List Question
  tsig : Option String
  deriving DecidableEq, Repr

/-- Go map lookup `co.TsigSecret[name]`, case-sensitive on the key. -/
def lookupSecret (m : List (String × String)) (k : String) : Option String :=
  (m.find? fun kv => kv.1 == k).map Prod.snd

/-- The mutable fields of `Conn` the exchange logic uses: the secret map,
the measured round-trip time `rtt`, the last-write timestamp `t`, and the
TSIG MAC of the last signed write (`tsigRequestMAC`).  Timestamps are
abstract `Nat` instants. -/
structure ConnState where
  secrets : List (String × String)
  rtt : Nat
  t : Nat
  mac : String
  deriving DecidableEq, Repr

/-- Embedding of `Conn.ReadMsg` (client.go:129-158).  The outcome of
`co.Read` is given as the byte count `n` plus optional error `rerr`; the
external codec's `Msg.Unpack` on the received bytes is given as `unpack`
(`none` = decode error); the external `TsigVerify` verdict as `verify`.
Control flow follows the source: a read error with `n == 0` aborts; a
decode failure aborts; on decode success `rtt` is set to now minus the
write timestamp; a TSIG-carrying message whose owner name is not in the
secret map yields `errSecret` (TsigVerify is not consulted); otherwise
the verification verdict replaces the read error.  Returns the decoded
message (if any), the error, and the updated connection state. -/
def readMsg (co : ConnState) (now : Nat) (n : Nat) (rerr : Option Err)
    (unpack : Option Msg) (verify : Option Err) :
    Option Msg × Option Err × ConnState :=
  if rerr.isSome ∧ n = 0 then (none, rerr, co)
  else
    match unpack with
    | none => (none, some Err.errUnpack, co)
    | some m =>
        let co1 := { co with rtt := now - co.t }
        match m.tsig with
        | none => (some m, rerr, co1)
        | some name =>
            match lookupSecret co1.secrets name with
            | none => (some m, some Err.errSecret, co1)
            | some _ => (some m, verify, co1)

/-- Embedding of `Conn.WriteMsg` (client.go:206-227).  The external
`TsigGenerate` outcome is given as `tsigGen` (`none` = failure, otherwise
the signed wire bytes and the new MAC); the external `Msg.Pack` outcome
as `pack`.  A TSIG-carrying message whose owner name is missing from the
secret map yields `errSecret` before any encoding or transport write;
otherwise the wire bytes are produced, the MAC is stored, the write
timestamp is set to `now`, and the bytes go out through `connWrite`.
Returns the error (if any), the updated connection state, and the updated
transport state. -/
def writeMsg (co : ConnState) (w : WireState) (now : Nat) (m : Msg)
    (tsigGen : Option (List Nat × String)) (pack : Option (List Nat)) :
    Option Err × ConnState × WireState :=
  match m.tsig with
  | some name =>
      match lookupSecret co.secrets name with
      | none => (some Err.errSecret, co, w)
      | some _ =>
          match tsigGen with
          | none => (some Err.errGen, { co with mac := "" }, w)
          | some (out, mac) =>
              let co1 := { co with mac := mac, t := now }
              let res := connWrite w out
              match res.2.1 with
              | some e => (some e, co1, res.2.2)
              | none => (none, co1, res.2.2)
  | none =>
      match pack with
      | none => (some Err.errPack, co, w)
      | some out =>
          let co1 := { co with t := now }
          let res := connWrite w out
          match res.2.1 with
          | some e => (some e, co1, res.2.2)
          | none => (none, co1, res.2.2)

/-- Embedding of `Client.exchange` (client.go:89-124), stream transport.
`dial` is the dial outcome (`some e` = dial failure); `noww` / `nowr` are
the instants at which the write timestamp is taken and at which the read
completes; the remaining parameters feed `writeMsg` and `readMsg` as
above.  A dial failure or a `WriteMsg` failure returns a literal zero
round-trip time; otherwise the result of `ReadMsg` is returned together
with the connection's `rtt` field. -/
def exchange (secrets : List (String × String)) (dial : Option Err) (w : WireState)
    (noww nowr : Nat) (m : Msg) (tsigGen : Option (List Nat × String))
    (pack : Option (List Nat)) (readN : Nat) (rerr : Option Err)
    (unpack : Option Msg) (verify : Option Err) :
    Option Msg × Nat × Option Err :=
  match dial with
  | some e => (none, 0, some e)
  | none =>
      let co0 : ConnState := ⟨secrets, 0, 0, ""⟩
      match writeMsg co0 w noww m tsigGen pack with
      | (some e, _, _) => (none, 0, some e)
      | (none, co1, _) =>
          let res := readMsg co1 nowr readN rerr unpack verify
          (res.1, res.2.2.rtt, res.2.1)

/-- A `*Msg` reference: a message value together with the identity `ref`
of the heap instance holding it.  Two results alias the same mutable
message exactly when their `ref`s coincide. -/
structure MsgRef where
  val : Msg
  ref : Nat
  deriving DecidableEq, Repr

/-- Modelled from the spec: `Msg.copy` / `CopyMessage` is not in src/;
per the spec it returns an independent deep copy, i.e. the same message
value held by a fresh instance. -/
def msgCopy (mr : MsgRef) (fresh : Nat) : MsgRef :=
  ⟨mr.val, fresh⟩

/-- Modelled from the spec: the deduplication coordinator
(`singleflight.Do`) is not in src/; per the spec, `n` concurrent callers
presenting the same key observe exactly one invocation of `work` (whose
result triple is the argument `work`), every caller receives that same
result — in particular the same message instance — and the coordinator
reports to each caller whether its result was original (the first caller,
index 0) or shared (every other caller). -/
def singleflightDo (n : Nat) (work : Option MsgRef × Nat × Option Err) :
    List ((Option MsgRef × Nat × Option Err) × Bool) :=
  (List.range n).map fun i => (work, i != 0)

/-- The post-processing one caller's `Client.Exchange` applies to what
`c.group.Do` handed back (client.go:79-86): an error is returned as-is
(no copy); a shared error-free result is replaced by `r.copy()`, a fresh
instance `fresh`; an original result is returned uncopied. -/
def exchangePost (res : (Option MsgRef × Nat × Option Err) × Bool) (fresh : Nat) :
    Option MsgRef × Nat × Option Err :=
  match res with
  | ((r, rtt, some e), _) => (r, rtt, some e)
  | ((r, rtt, none), shared) =>
      if shared then ((r.map fun mr => msgCopy mr fresh), rtt, none)
      else (r, rtt, none)

/-- The deduplicated path of `Client.Exchange` (client.go:76-86) seen by
all `n` callers of one in-flight call at once: caller `i` applies
`exchangePost` to its share of the coordinator's output, drawing the
fresh instance `fb + i` if it copies. -/
def exchangeCallers (n : Nat) (work : Option MsgRef × Nat × Option Err) (fb : Nat) :
    List (Option MsgRef × Nat × Option Err) :=
  (List.range n).map fun i => exchangePost (work, i != 0) (fb + i)

/-- Outcome of the query-key computation of `Client.Exchange`:
either the key string, or the runtime panic raised by indexing
`m.Question[0]` on an empty question section. -/
inductive KeyResult where
  | panic
  | key (s : String)
  deriving DecidableEq, Repr

/-- The query key `Client.Exchange` builds on its deduplicated path
(client.go:67-76): the first question's `Name`, then the symbolic name of
its `Qtype` per the `TypeToString` table (the literal placeholder "nop"
when the table has no entry), then likewise for `Qclass` per
`ClassToString`.  The tables live outside src/, so they are parameters;
indexing `m.Question[0]` on an empty question section is the `panic`
outcome. -/
def exchangeKey (tts cts : Nat → Option String) (m : Msg) : KeyResult :=
  match m.question.head? with
  | none => KeyResult.panic
  | some q =>
      KeyResult.key (q.name ++ ((tts q.qtype).getD "nop") ++ ((cts q.qclass).getD "nop"))

/-- The entry dispatch of `Client.Exchange` (client.go:63-66): with
`SingleInflight` unset the call goes straight to `c.exchange` and no
query key is computed (`none`); with it set the key computation runs
(and may panic). -/
def clientExchangeEntry (single : Bool) (tts cts : Nat → Option String) (m : Msg) :
    Option KeyResult :=
  if !single then none else some (exchangeKey tts cts m)

/-! ### Helper lemmas -/

lemma writeAt_nil (p : List Nat) (i : Nat) : writeAt p i [] = p := by
  simp [writeAt]

lemma writeAt_length (p a : List Nat) (i : Nat) (h : i + a.length ≤ p.length) :
    (writeAt p i a).length = p.length := by
  simp only [writeAt, List.length_append, List.length_take, List.length_drop]
  omega

lemma writeAt_writeAt (p a b : List Nat) (i k : Nat) (hi : i ≤ p.length)
    (hk : a.length = k) :
    writeAt (writeAt p i a) (i + k) b = writeAt p i (a ++ b) := by
  subst hk
  have h1 : (p.take i ++ a).length = i + a.length := by
    simp [List.length_take]; omega
  have h2 : writeAt p i a = (p.take i ++ a) ++ p.drop (i + a.length) := by
    simp [writeAt]
  rw [writeAt, h2, List.take_left' h1]
  have h3 : i + a.length + b.length = (p.take i ++ a).length + b.length := by omega
  rw [h3, List.drop_append b.length, List.drop_drop, writeAt]
  simp only [List.length_append]
  rw [List.append_assoc, List.append_assoc]
  have h4 : i + a.length + b.length = i + (a.length + b.length) := by omega
  rw [h4]
  simp [List.append_assoc]

lemma take_append_take_drop (d : List Nat) (k n : Nat) (h : k ≤ n) :
    d.take k ++ (d.drop k).take (n - k) = d.take n := by
  have : n = k + (n - k) := by omega
  rw [this, List.take_add]
  simp

/-- On a non-empty stream asked for at least one byte, `netRead` delivers
between 1 and `want` bytes off the front of `data`. -/
lemma netRead_ok : ∀ (s : NetState) (want : Nat), s.data ≠ [] → 1 ≤ want →
    ∃ k, 1 ≤ k ∧ k ≤ want ∧ k ≤ s.data.length ∧
      netRead s want = Except.ok (s.data.take k, ⟨s.data.drop k, s.sched.tail⟩)
  | ⟨[], _⟩, _, hd, _ => absurd rfl hd
  | ⟨x :: xs, []⟩, want, _, hw => by
      refine ⟨min want (x :: xs).length, ?_, ?_, ?_, rfl⟩
      all_goals dsimp only
      all_goals simp only [List.length_cons]
      all_goals omega
  | ⟨x :: xs, c :: cs⟩, want, _, hw => by
      refine ⟨min (min (max 1 c) want) (x :: xs).length, ?_, ?_, ?_, rfl⟩
      all_goals dsimp only
      all_goals simp only [List.length_cons]
      all_goals omega

/-- A successful transport write call accepts a front chunk of the bytes
it was handed, appending exactly that chunk to the wire. -/
lemma netWrite_ok_wire : ∀ (s : WireState) (bytes : List Nat) (k : Nat) (s1 : WireState),
    netWrite s bytes = Except.ok (k, s1) →
    s1.wire = s.wire ++ bytes.take k ∧ k ≤ bytes.length
  | ⟨w, []⟩, bytes, k, s1, h => by
      simp only [netWrite] at h
      cases h
      simp
  | ⟨w, 0 :: cs⟩, bytes, k, s1, h => by
      simp [netWrite] at h
  | ⟨w, (c + 1) :: cs⟩, bytes, k, s1, h => by
      simp only [netWrite] at h
      cases h
      exact ⟨rfl, by omega⟩

/-- A failing transport write call fails with `eof`. -/
lemma netWrite_error_eq : ∀ (s : WireState) (bytes : List Nat) (e : Err),
    netWrite s bytes = Except.error e → e = Err.eof
  | ⟨w, []⟩, bytes, e, h => by simp [netWrite] at h
  | ⟨w, 0 :: cs⟩, bytes, e, h => by
      simp only [netWrite] at h
      cases h
      rfl
  | ⟨w, (c + 1) :: cs⟩, bytes, e, h => by simp [netWrite] at h

lemma frameOf_length (p : List Nat) : (frameOf p).length = p.length + 2 := by
  simp [frameOf, packUint16]

/-- With an unconstrained transport, `Conn.Write` puts the whole frame on
the wire in one call and reports the full count. -/
lemma connWrite_sched_nil (p w0 : List Nat) (h : 2 ≤ p.length) :
    connWrite ⟨w0, []⟩ p = (p.length + 2, none, ⟨w0 ++ frameOf p, []⟩) := by
  have hq := frameOf_length p
  simp only [connWrite, if_neg (by omega : ¬p.length < 2), netWrite]
  rw [show (packUint16 (p.length % 65536) ++ p) = frameOf p from rfl]
  simp [hq]

/-- With a transport that caps the first call at `c + 1` bytes and then
accepts everything, `Conn.Write` completes the frame within its two write
calls. -/
lemma connWrite_sched_one (p w0 : List Nat) (c : Nat) (h : 2 ≤ p.length) :
    connWrite ⟨w0, [c + 1]⟩ p = (p.length + 2, none, ⟨w0 ++ frameOf p, []⟩) := by
  have hq := frameOf_length p
  simp only [connWrite, if_neg (by omega : ¬p.length < 2), netWrite]
  rw [show (packUint16 (p.length % 65536) ++ p) = frameOf p from rfl]
  by_cases hk : min (c + 1) (frameOf p).length < (frameOf p).length
  · simp only [if_pos hk]
    simp [List.length_drop, List.take_append_drop]
    omega
  · simp only [if_neg hk]
    have : min (c + 1) (frameOf p).length = (frameOf p).length := by omega
    simp [this, List.take_length]
    omega

/-- Framing invariant of `Conn.Write`: whatever the delivery schedule,
the bytes that reach the wire are exactly the first `n` bytes of the
frame, where `n` is the count `Write` returns. -/
lemma connWrite_wire (p w0 sched : List Nat) (h : 2 ≤ p.length) :
    (connWrite ⟨w0, sched⟩ p).2.2.wire
      = w0 ++ (frameOf p).take (connWrite ⟨w0, sched⟩ p).1 := by
  simp only [connWrite, if_neg (by omega : ¬p.length < 2)]
  rw [show (packUint16 (p.length % 65536) ++ p) = frameOf p from rfl]
  rcases hw1 : netWrite ⟨w0, sched⟩ (frameOf p) with e | nk
  · simp
  · obtain ⟨n, s1⟩ := nk
    obtain ⟨hs1, hn⟩ := netWrite_ok_wire _ _ _ _ hw1
    by_cases hlt : n < (frameOf p).length
    · simp only [if_pos hlt]
      rcases hw2 : netWrite s1 ((frameOf p).drop n) with e2 | nk2
      · simpa using hs1
      · obtain ⟨j, s2⟩ := nk2
        obtain ⟨hs2, hj⟩ := netWrite_ok_wire _ _ _ _ hw2
        simp only []
        rw [hs2, hs1, List.take_add, List.append_assoc]
    · simp only [if_neg hlt]
      simpa using hs1

/-- On a payload of length at least 2, `Conn.Write` never reports
`shortBuffer`; its error, if any, comes from the transport (`eof`). -/
lemma connWrite_err_of_le (p w0 sched : List Nat) (h : 2 ≤ p.length) :
    (connWrite ⟨w0, sched⟩ p).2.1 = none ∨
    (connWrite ⟨w0, sched⟩ p).2.1 = some Err.eof := by
  simp only [connWrite, if_neg (by omega : ¬p.length < 2)]
  rcases hw1 : netWrite ⟨w0, sched⟩ (packUint16 (p.length % 65536) ++ p) with e | nk
  · right
    simp [netWrite_error_eq _ _ _ hw1]
  · obtain ⟨n, s1⟩ := nk
    by_cases hlt : n < (packUint16 (p.length % 65536) ++ p).length
    · simp only [if_pos hlt]
      rcases hw2 : netWrite s1 ((packUint16 (p.length % 65536) ++ p).drop n) with e2 | nk2
      · right
        simp [netWrite_error_eq _ _ _ hw2]
      · obtain ⟨j, s2⟩ := nk2
        left
        trivial
    · simp only [if_neg hlt]
      left
      trivial

/-- C2, counterexample: with a transport that accepts one byte per write
call, `Conn.Write` on the 3-byte payload `[1, 2, 3]` issues its two write
calls, puts only the 2 length bytes `[0, 3]` on the wire — not the full
5-byte frame — and returns count 2 with no error, so it does not continue
writing the remainder across arbitrarily many partial writes. -/
theorem C2_counterexample :
    connWrite ⟨[], [1, 1]⟩ [1, 2, 3] = (2, none, ⟨[0, 3], []⟩) ∧
    (connWrite ⟨[], [1, 1]⟩ [1, 2, 3]).2.1 = none ∧
    (connWrite ⟨[], [1, 1]⟩ [1, 2, 3]).2.2.wire ≠ frameOf [1, 2, 3] := by decide

/-- C2 (amended): on a stream transport, for every payload of length at
least 2, `Conn.Write` emits the 2 big-endian length bytes (value
`len mod 2^16`) followed by the payload using at most two transport write
calls: whatever the delivery schedule, the wire extends by exactly the
first `n` bytes of that frame where `n` is the returned count; and when
the transport accepts the frame within two calls (an unconstrained first
call, or a capped first call followed by an unconstrained one), the full
frame is transferred and the full count `len + 2` is returned with no
error.  (A third partial write is never attempted.) -/
theorem C2_write_frame (p w0 sched : List Nat) (c : Nat) (h : 2 ≤ p.length) :
    (connWrite ⟨w0, sched⟩ p).2.2.wire
        = w0 ++ (frameOf p).take (connWrite ⟨w0, sched⟩ p).1 ∧
    connWrite ⟨w0, []⟩ p = (p.length + 2, none, ⟨w0 ++ frameOf p, []⟩) ∧
    connWrite ⟨w0, [c + 1]⟩ p = (p.length + 2, none, ⟨w0 ++ frameOf p, []⟩) :=
  ⟨connWrite_wire p w0 sched h, connWrite_sched_nil p w0 h, connWrite_sched_one p w0 c h⟩

/-- C2, witness at payload `[1, 2, 3]`, schedule `[7]`, cap `4 + 1`. -/
theorem C2_write_frame_witness :
    (connWrite ⟨[9], [7]⟩ [1, 2, 3]).2.2.wire
        = [9] ++ (frameOf [1, 2, 3]).take (connWrite ⟨[9], [7]⟩ [1, 2, 3]).1 ∧
    connWrite ⟨[9], []⟩ [1, 2, 3] = ([1, 2, 3].length + 2, none, ⟨[9] ++ frameOf [1, 2, 3], []⟩) ∧
    connWrite ⟨[9], [4 + 1]⟩ [1, 2, 3]
        = ([1, 2, 3].length + 2, none, ⟨[9] ++ frameOf [1, 2, 3], []⟩) :=
  C2_write_frame [1, 2, 3] [9] [7] 4 (by decide)

/-- C5, counterexample: the payload `[7]` has length 1 (at least 1, not
empty), yet `Conn.Write` on a stream transport fails with `shortBuffer`,
because the source rejects every payload shorter than 2 bytes, not just
empty ones. -/
theorem C5_counterexample :
    connWrite ⟨[], []⟩ [7] = (0, some Err.shortBuffer, ⟨[], []⟩) ∧
    [7] ≠ ([] : List Nat) := by decide

/-- C5 (amended): on a stream transport, `Conn.Write` fails with
`shortBuffer` exactly when the payload is shorter than 2 bytes (empty or
a single byte); for every payload of length at least 2 it never fails
with `shortBuffer`. -/
theorem C5_shortBuffer_iff (s : WireState) (p : List Nat) :
    (connWrite s p).2.1 = some Err.shortBuffer ↔ p.length < 2 := by
  obtain ⟨w0, sched⟩ := s
  by_cases h : p.length < 2
  · simp [connWrite, h]
  · simp only [h, iff_false]
    rcases connWrite_err_of_le p w0 sched (by omega) with h1 | h1 <;> simp [h1]

/-- C10: on a stream transport, the advertised 2-byte length is the
payload length reduced mod `2^16`: for every payload longer than 65535
bytes, `Conn.Write` (on an unconstrained transport) reports no error, the
wire holds the 2 length bytes followed by the payload, and the advertised
value — recomputed big-endian from the first two wire bytes — equals
`len mod 65536`, which is not the number of payload bytes that follow. -/
theorem C10_length_wraps (p : List Nat) (h : 65535 < p.length) :
    (connWrite ⟨[], []⟩ p).2.1 = none ∧
    (connWrite ⟨[], []⟩ p).2.2.wire = frameOf p ∧
    256 * ((connWrite ⟨[], []⟩ p).2.2.wire.getD 0 0)
        + (connWrite ⟨[], []⟩ p).2.2.wire.getD 1 0 = p.length % 65536 ∧
    p.length % 65536 ≠ p.length := by
  have h2 : 2 ≤ p.length := by omega
  rw [connWrite_sched_nil p [] h2]
  refine ⟨rfl, by simp, ?_, by omega⟩
  simp only [frameOf, packUint16, List.nil_append, List.cons_append,
    List.getD_cons_zero, List.getD_cons_succ]
  omega

/-- C10, witness at a payload of 65537 zero bytes. -/
theorem C10_length_wraps_witness :
    (connWrite ⟨[], []⟩ (List.replicate 65537 0)).2.1 = none ∧
    (connWrite ⟨[], []⟩ (List.replicate 65537 0)).2.2.wire = frameOf (List.replicate 65537 0) ∧
    256 * ((connWrite ⟨[], []⟩ (List.replicate 65537 0)).2.2.wire.getD 0 0)
        + (connWrite ⟨[], []⟩ (List.replicate 65537 0)).2.2.wire.getD 1 0
        = (List.replicate 65537 0).length % 65536 ∧
    (List.replicate 65537 0).length % 65536 ≠ (List.replicate 65537 0).length :=
  C10_length_wraps (List.replicate 65537 0) (by rw [List.length_replicate]; omega)

/-- Correctness of the partial-read loop: when the stream holds enough
data and the buffer is long enough, the loop reads exactly `l - i` more
bytes into `p[i:l]`, whatever the delivery schedule, and reports no
error.  Fuel `l - i` suffices. -/
lemma readLoop_spec (fuel : Nat) : ∀ (s : NetState) (p : List Nat) (i l : Nat),
    l - i ≤ fuel → l - i ≤ s.data.length → i ≤ l → l ≤ p.length →
    readLoop fuel s p i l = (l, writeAt p i (s.data.take (l - i)), none) := by
  induction fuel with
  | zero =>
      intro s p i l h1 h2 h3 h4
      have hil : i = l := by omega
      subst hil
      simp [readLoop, writeAt_nil]
  | succ fuel ih =>
      intro s p i l h1 h2 h3 h4
      by_cases hil : i < l
      · have hd : s.data ≠ [] := by
          intro he
          rw [he] at h2
          simp at h2
          omega
        obtain ⟨k, hk1, hk2, hk3, heq⟩ := netRead_ok s (l - i) hd (by omega)
        have hlen : (s.data.take k).length = k := by
          simp [List.length_take]; omega
        simp only [readLoop, if_pos hil, heq]
        rw [hlen]
        rw [ih ⟨s.data.drop k, s.sched.tail⟩ (writeAt p i (s.data.take k)) (i + k) l
          (by omega) (by simp [List.length_drop]; omega) (by omega)
          (by rw [writeAt_length p _ i (by omega)]; omega)]
        have hcomp := writeAt_writeAt p (s.data.take k) ((s.data.drop k).take (l - (i + k)))
          i k (by omega) hlen
        simp only [NetState.mk.injEq] at hcomp ⊢
        rw [hcomp]
        have : l - (i + k) = (l - i) - k := by omega
        rw [this, take_append_take_drop s.data k (l - i) (by omega)]
      · have hil2 : i = l := by omega
        subst hil2
        simp [readLoop, writeAt_nil]

/-- A first read call scheduled to deliver 2 bytes hands over exactly the
two leading bytes of the stream. -/
lemma netRead_two (a b : Nat) (tl rest : List Nat) :
    netRead ⟨a :: b :: tl, 2 :: rest⟩ 2 = Except.ok ([a, b], ⟨tl, rest⟩) := by
  simp [netRead]

lemma writeAt_zero_pair (p : List Nat) (a b : Nat) :
    writeAt p 0 [a, b] = a :: b :: p.drop 2 := by
  simp [writeAt]

lemma take_writeAt_zero (x a : List Nat) : (writeAt x 0 a).take a.length = a := by
  simp only [writeAt, List.take_zero, List.nil_append, Nat.zero_add]
  exact List.take_left' rfl

/-- Behaviour of `Conn.Read` when the transport delivers the whole 2-byte
prefix in the first call and the advertised length `256 * a + b` is
non-zero, fits the buffer, and is available on the stream: the payload is
read in full — across arbitrarily scheduled partial reads — and no error
is reported. -/
lemma connRead_spec (a b : Nat) (tl rest p : List Nat) (h4 : 2 ≤ p.length)
    (hl0 : 256 * a + b ≠ 0) (hlp : 256 * a + b ≤ p.length)
    (hld : 256 * a + b ≤ tl.length) :
    connRead (some ⟨a :: b :: tl, 2 :: rest⟩) p
      = (256 * a + b, writeAt (writeAt p 0 [a, b]) 0 (tl.take (256 * a + b)), none) := by
  simp only [connRead, if_neg (by omega : ¬p.length < 2), netRead_two]
  have hgd : (writeAt p 0 [a, b]).getD 0 0 = a ∧ (writeAt p 0 [a, b]).getD 1 0 = b := by
    rw [writeAt_zero_pair]
    exact ⟨rfl, rfl⟩
  simp only [List.length_cons, List.length_nil, hgd.1, hgd.2,
    if_neg (by omega : ¬(0 + 1 + 1 ≠ 2)), if_neg hl0, if_neg (by omega : ¬p.length < 256 * a + b)]
  rw [readLoop_spec (256 * a + b) ⟨tl, rest⟩ (writeAt p 0 [a, b]) 0 (256 * a + b)
    (by omega) (by dsimp only; omega) (by omega)
    (by rw [writeAt_length p [a, b] 0 (by simp only [List.length_cons, List.length_nil]; omega)]
        omega)]
  simp

/-- C3, counterexample: the 3-byte frame `[0, 1, 99]` (length prefix 1,
payload `[99]`) is delivered by a transport that hands over a single byte
in the first read call.  `Conn.Read` performs exactly one read call for
the 2-byte prefix without looping, so it returns count 1 with no error,
and the buffer's first byte is the prefix byte 0, not the payload — the
original payload is not reconstructed under this chunking. -/
theorem C3_counterexample :
    connRead (some ⟨[0, 1, 99], [1]⟩) [5, 5, 5, 5] = (1, [0, 5, 5, 5], none) ∧
    [0, 5, 5, 5].take 1 ≠ [99] := by decide

/-- C3 (amended): on a stream transport, provided the underlying
transport delivers both length-prefix bytes in `Conn.Read`'s first
(un-looped) read call, and the advertised payload (non-empty, within the
buffer) is available, `Read` reconstructs the original payload regardless
of how the transport splits the payload bytes into chunks: it returns the
payload length as count, no error, and the first `L` buffer bytes are the
payload. -/
theorem C3_read_reassembles (pl extra rest p : List Nat)
    (h1 : 1 ≤ pl.length) (h2 : pl.length < 65536) (h3 : pl.length ≤ p.length)
    (h4 : 2 ≤ p.length) :
    (connRead (some ⟨pl.length / 256 :: pl.length % 256 :: (pl ++ extra), 2 :: rest⟩) p).1
        = pl.length ∧
    (connRead (some ⟨pl.length / 256 :: pl.length % 256 :: (pl ++ extra), 2 :: rest⟩) p).2.2
        = none ∧
    ((connRead (some ⟨pl.length / 256 :: pl.length % 256 :: (pl ++ extra), 2 :: rest⟩) p).2.1).take
        pl.length = pl := by
  have hl : 256 * (pl.length / 256) + pl.length % 256 = pl.length := by omega
  rw [connRead_spec (pl.length / 256) (pl.length % 256) (pl ++ extra) rest p h4
    (by omega) (by omega) (by simp only [List.length_append]; omega)]
  rw [hl]
  have htake : (pl ++ extra).take pl.length = pl := List.take_left' rfl
  rw [htake]
  refine ⟨rfl, rfl, ?_⟩
  have := take_writeAt_zero (writeAt p 0 [pl.length / 256, pl.length % 256]) pl
  simpa using this

/-- C3, witness: payload `[99]` arriving after a whole-prefix first read,
with the payload itself split one byte per call. -/
theorem C3_read_reassembles_witness :
    (connRead (some ⟨[99].length / 256 :: [99].length % 256 :: ([99] ++ []), 2 :: [1, 1]⟩)
        [5, 5, 5, 5]).1 = [99].length ∧
    (connRead (some ⟨[99].length / 256 :: [99].length % 256 :: ([99] ++ []), 2 :: [1, 1]⟩)
        [5, 5, 5, 5]).2.2 = none ∧
    ((connRead (some ⟨[99].length / 256 :: [99].length % 256 :: ([99] ++ []), 2 :: [1, 1]⟩)
        [5, 5, 5, 5]).2.1).take [99].length = [99] :=
  C3_read_reassembles [99] [] [1, 1] [5, 5, 5, 5] (by decide) (by decide) (by decide) (by decide)

/-- C6: on a stream transport with the 2-byte prefix delivered in the
first read call, a zero advertised length makes `Conn.Read` fail with
`shortRead` (count 0, no message bytes delivered), and an advertised
length exceeding the destination buffer's length makes it fail with
`shortBuffer` returning the advertised length as the count, without
reading any payload byte off the stream. -/
theorem C6_read_bounds (b0 b1 : Nat) (extra rest p : List Nat) (h : 2 ≤ p.length) :
    (256 * b0 + b1 = 0 →
      connRead (some ⟨b0 :: b1 :: extra, 2 :: rest⟩) p
        = (0, writeAt p 0 [b0, b1], some Err.shortRead)) ∧
    (p.length < 256 * b0 + b1 →
      connRead (some ⟨b0 :: b1 :: extra, 2 :: rest⟩) p
        = (256 * b0 + b1, writeAt p 0 [b0, b1], some Err.shortBuffer)) := by
  have hgd : (writeAt p 0 [b0, b1]).getD 0 0 = b0 ∧ (writeAt p 0 [b0, b1]).getD 1 0 = b1 := by
    rw [writeAt_zero_pair]
    exact ⟨rfl, rfl⟩
  constructor
  · intro hz
    simp only [connRead, if_neg (by omega : ¬p.length < 2), netRead_two]
    simp only [List.length_cons, List.length_nil, hgd.1, hgd.2,
      if_neg (by omega : ¬(0 + 1 + 1 ≠ 2)), hz, if_pos rfl]
    simp
  · intro hb
    simp only [connRead, if_neg (by omega : ¬p.length < 2), netRead_two]
    simp only [List.length_cons, List.length_nil, hgd.1, hgd.2,
      if_neg (by omega : ¬(0 + 1 + 1 ≠ 2)), if_neg (by omega : ¬256 * b0 + b1 = 0),
      if_pos hb]

/-- C6, witness: advertised length 0 and advertised length 700 against a
4-byte buffer. -/
theorem C6_read_bounds_witness :
    connRead (some ⟨0 :: 0 :: [8, 9], 2 :: []⟩) [5, 5, 5, 5]
        = (0, writeAt [5, 5, 5, 5] 0 [0, 0], some Err.shortRead) ∧
    connRead (some ⟨2 :: 188 :: [8, 9], 2 :: []⟩) [5, 5, 5, 5]
        = (2 * 256 + 188, writeAt [5, 5, 5, 5] 0 [2, 188], some Err.shortBuffer) := by
  constructor
  · exact (C6_read_bounds 0 0 [8, 9] [] [5, 5, 5, 5] (by decide)).1 (by decide)
  · have := (C6_read_bounds 2 188 [8, 9] [] [5, 5, 5, 5] (by decide)).2 (by decide)
    simpa using this

lemma getD_map_range {α : Type} (f : Nat → α) (n i : Nat) (d : α) (h : i < n) :
    ((List.range n).map f).getD i d = f i := by
  rw [List.getD_eq_getD_get?]
  rw [show ((List.range n).map f).get? i = some (f i) by
    rw [List.get?_eq_getElem?, List.getElem?_map, List.getElem?_range h]
    rfl]
  rfl

/-- A `WriteMsg` that reports no error has set the connection's write
timestamp to `now` and left the secret map and the `rtt` field alone
(both the TSIG and the plain branch do so). -/
lemma writeMsg_ok_state (co : ConnState) (w : WireState) (now : Nat) (m : Msg)
    (tg : Option (List Nat × String)) (pk : Option (List Nat))
    (h : (writeMsg co w now m tg pk).1 = none) :
    ((writeMsg co w now m tg pk).2.1).t = now ∧
    ((writeMsg co w now m tg pk).2.1).secrets = co.secrets ∧
    ((writeMsg co w now m tg pk).2.1).rtt = co.rtt := by
  rcases m with ⟨q, tsig⟩
  rcases tsig with _ | name
  · rcases pk with _ | out
    · simp [writeMsg] at h
    · simp only [writeMsg] at h ⊢
      rcases hcw : (connWrite w out).2.1 with _ | e
      · simp [hcw]
      · simp [hcw] at h
  · rcases hlk : lookupSecret co.secrets name with _ | sec
    · simp [writeMsg, hlk] at h
    · rcases tg with _ | om
      · simp [writeMsg, hlk] at h
      · obtain ⟨out, mac⟩ := om
        simp only [writeMsg, hlk] at h ⊢
        rcases hcw : (connWrite w out).2.1 with _ | e
        · simp [hcw]
        · simp [hcw] at h

/-- C4, counterexample: a successful write (plain 2-byte message at
instant 3) followed by a read that decodes a message carrying a TSIG
record whose owner name "k." has no entry in the (empty) secret map.
`Client.exchange` returns the error together with the round-trip time
8 - 3 = 5, not a zero round-trip time, because `co.rtt` was set when the
decode succeeded, before the read error arose. -/
theorem C4_counterexample :
    exchange [] none ⟨[], []⟩ 3 8 ⟨[], none⟩ none (some [1, 2]) 5 none
        (some ⟨[], some "k."⟩) none = (some ⟨[], some "k."⟩, 5, some Err.errSecret) ∧
    (5 : Nat) ≠ 0 := by decide

/-- C4 (amended): `Client.exchange` returns a zero round-trip time for a
dial failure, for a write failure, and for a read failure that occurs
before the response is decoded (a transport read error with no bytes, or
a decode failure); but a read error raised after a successful decode —
an unknown TSIG secret (clause 5) or a TSIG verification failure with
the secret present (clause 6) — is returned together with the measured
round-trip time `nowr - noww` and the decoded message. -/
theorem C4_exchange_rtt (secrets : List (String × String)) (w : WireState) (noww nowr : Nat)
    (m : Msg) (tg : Option (List Nat × String)) (pk : Option (List Nat)) (readN : Nat)
    (rerr : Option Err) (unpack : Option Msg) (verify : Option Err) :
    (∀ e, exchange secrets (some e) w noww nowr m tg pk readN rerr unpack verify
        = (none, 0, some e)) ∧
    (∀ e, (writeMsg ⟨secrets, 0, 0, ""⟩ w noww m tg pk).1 = some e →
        exchange secrets none w noww nowr m tg pk readN rerr unpack verify
          = (none, 0, some e)) ∧
    ((writeMsg ⟨secrets, 0, 0, ""⟩ w noww m tg pk).1 = none → rerr.isSome ∧ readN = 0 →
        exchange secrets none w noww nowr m tg pk readN rerr unpack verify
          = (none, 0, rerr)) ∧
    ((writeMsg ⟨secrets, 0, 0, ""⟩ w noww m tg pk).1 = none → ¬(rerr.isSome ∧ readN = 0) →
        unpack = none →
        exchange secrets none w noww nowr m tg pk readN rerr unpack verify
          = (none, 0, some Err.errUnpack)) ∧
    (∀ mm nm, (writeMsg ⟨secrets, 0, 0, ""⟩ w noww m tg pk).1 = none →
        ¬(rerr.isSome ∧ readN = 0) → unpack = some mm → mm.tsig = some nm →
        lookupSecret secrets nm = none →
        exchange secrets none w noww nowr m tg pk readN rerr unpack verify
          = (some mm, nowr - noww, some Err.errSecret)) ∧
    (∀ mm nm sec e, (writeMsg ⟨secrets, 0, 0, ""⟩ w noww m tg pk).1 = none →
        ¬(rerr.isSome ∧ readN = 0) → unpack = some mm → mm.tsig = some nm →
        lookupSecret secrets nm = some sec → verify = some e →
        exchange secrets none w noww nowr m tg pk readN rerr unpack verify
          = (some mm, nowr - noww, some e)) := by
  refine ⟨fun e => rfl, ?_, ?_, ?_, ?_, ?_⟩
  · intro e he
    simp only [exchange]
    rcases hwm : writeMsg ⟨secrets, 0, 0, ""⟩ w noww m tg pk with ⟨err, co1, w1⟩
    rw [hwm] at he
    simp only at he
    subst he
    simp
  · intro he hr
    have hst := writeMsg_ok_state ⟨secrets, 0, 0, ""⟩ w noww m tg pk he
    rcases hwm : writeMsg ⟨secrets, 0, 0, ""⟩ w noww m tg pk with ⟨err, co1, w1⟩
    rw [hwm] at he hst
    simp only at he hst
    subst he
    simp only [exchange, hwm]
    simp [readMsg, if_pos hr, hst.2.2]
  · intro he hnr hu
    have hst := writeMsg_ok_state ⟨secrets, 0, 0, ""⟩ w noww m tg pk he
    rcases hwm : writeMsg ⟨secrets, 0, 0, ""⟩ w noww m tg pk with ⟨err, co1, w1⟩
    rw [hwm] at he hst
    simp only at he hst
    subst he
    subst hu
    simp only [exchange, hwm]
    simp [readMsg, if_neg hnr, hst.2.2]
  · intro mm nm he hnr hu hts hlk
    have hst := writeMsg_ok_state ⟨secrets, 0, 0, ""⟩ w noww m tg pk he
    rcases hwm : writeMsg ⟨secrets, 0, 0, ""⟩ w noww m tg pk with ⟨err, co1, w1⟩
    rw [hwm] at he hst
    simp only at he hst
    subst he
    subst hu
    simp only [exchange, hwm]
    simp [readMsg, if_neg hnr, hts, hst.1, hst.2.1, hlk, hst.2.2]
  · intro mm nm sec e he hnr hu hts hlk hv
    have hst := writeMsg_ok_state ⟨secrets, 0, 0, ""⟩ w noww m tg pk he
    rcases hwm : writeMsg ⟨secrets, 0, 0, ""⟩ w noww m tg pk with ⟨err, co1, w1⟩
    rw [hwm] at he hst
    simp only at he hst
    subst he
    subst hu
    subst hv
    simp only [exchange, hwm]
    simp [readMsg, if_neg hnr, hts, hst.1, hst.2.1, hlk, hst.2.2]

/-- C4, witness: the unknown-secret clause at the counterexample's input
and the verification-failure clause with the secret for "k." present and
the verifier rejecting (`errSig`); both return the measured round-trip
time 8 - 3 with the decoded message. -/
theorem C4_exchange_rtt_witness :
    (exchange [] none ⟨[], []⟩ 3 8 ⟨[], none⟩ none (some [1, 2]) 5 none
        (some ⟨[], some "k."⟩) none = (some ⟨[], some "k."⟩, 8 - 3, some Err.errSecret)) ∧
    (exchange [("k.", "s")] none ⟨[], []⟩ 3 8 ⟨[], none⟩ none (some [1, 2]) 5 none
        (some ⟨[], some "k."⟩) (some Err.errSig)
        = (some ⟨[], some "k."⟩, 8 - 3, some Err.errSig)) :=
  ⟨(C4_exchange_rtt [] ⟨[], []⟩ 3 8 ⟨[], none⟩ none (some [1, 2]) 5 none
      (some ⟨[], some "k."⟩) none).2.2.2.2.1 ⟨[], some "k."⟩ "k."
      (by decide) (by decide) rfl rfl rfl,
   (C4_exchange_rtt [("k.", "s")] ⟨[], []⟩ 3 8 ⟨[], none⟩ none (some [1, 2]) 5 none
      (some ⟨[], some "k."⟩) (some Err.errSig)).2.2.2.2.2 ⟨[], some "k."⟩ "k." "s" Err.errSig
      (by decide) (by decide) rfl rfl (by decide) rfl⟩

/-- C7: a message carrying a TSIG record whose owner name is absent from
the secret map makes `Conn.WriteMsg` fail with `errSecret` leaving the
connection state and the wire untouched and without consulting the
encoder (`tg`, `pk` are arbitrary and unused); and makes `Conn.ReadMsg`,
after a successful decode of such a response, return the decoded message
with `errSecret` for every possible verification verdict — i.e. without
attempting verification. -/
theorem C7_unknown_secret (co co2 : ConnState) (w : WireState) (now nowr readN : Nat)
    (m mm : Msg) (nm nm2 : String) (tg : Option (List Nat × String))
    (pk : Option (List Nat)) (rerr : Option Err)
    (h1 : m.tsig = some nm) (h2 : lookupSecret co.secrets nm = none)
    (h3 : mm.tsig = some nm2) (h4 : lookupSecret co2.secrets nm2 = none)
    (h5 : ¬(rerr.isSome ∧ readN = 0)) :
    writeMsg co w now m tg pk = (some Err.errSecret, co, w) ∧
    ∀ verify, readMsg co2 nowr readN rerr (some mm) verify
        = (some mm, some Err.errSecret, { co2 with rtt := nowr - co2.t }) := by
  constructor
  · rcases m with ⟨q, tsig⟩
    simp only at h1
    subst h1
    simp [writeMsg, h2]
  · intro verify
    rcases mm with ⟨q2, tsig2⟩
    simp only at h3
    subst h3
    simp [readMsg, if_neg h5, h4]

/-- C7, witness: secret map holding only "a." while the record's owner
name is "k.". -/
theorem C7_unknown_secret_witness :
    writeMsg ⟨[("a.", "s")], 0, 3, ""⟩ ⟨[], []⟩ 9 ⟨[], some "k."⟩ (some ([1], "m")) (some [1, 2])
        = (some Err.errSecret, ⟨[("a.", "s")], 0, 3, ""⟩, ⟨[], []⟩) ∧
    ∀ verify, readMsg ⟨[("a.", "s")], 0, 3, ""⟩ 8 5 none (some ⟨[], some "k."⟩) verify
        = (some ⟨[], some "k."⟩, some Err.errSecret,
           { (⟨[("a.", "s")], 0, 3, ""⟩ : ConnState) with rtt := 8 - 3 }) :=
  C7_unknown_secret ⟨[("a.", "s")], 0, 3, ""⟩ ⟨[("a.", "s")], 0, 3, ""⟩ ⟨[], []⟩ 9 8 5
    ⟨[], some "k."⟩ ⟨[], some "k."⟩ "k." "k." (some ([1], "m")) (some [1, 2]) none
    rfl (by decide) rfl (by decide) (by decide)

/-- C1, counterexample: two callers share one in-flight call whose work
completed with an error (`errSig`, a verification failure) alongside a
non-nil message held by instance 0.  Both the original caller (index 0)
and the shared caller (index 1) receive instance 0 — the shared caller's
result references the very same message instance as the original's, with
no copy made on the error path of `Client.Exchange`. -/
theorem C1_counterexample :
    exchangeCallers 2 (some ⟨⟨[], none⟩, 0⟩, 7, some Err.errSig) 1
        = [(some ⟨⟨[], none⟩, 0⟩, 7, some Err.errSig),
           (some ⟨⟨[], none⟩, 0⟩, 7, some Err.errSig)] ∧
    ((exchangeCallers 2 (some ⟨⟨[], none⟩, 0⟩, 7, some Err.errSig) 1).getD 1 (none, 0, none)).1
        = ((exchangeCallers 2 (some ⟨⟨[], none⟩, 0⟩, 7, some Err.errSig) 1).getD 0
            (none, 0, none)).1 := by decide

/-- C1 (amended): when the shared work completes without error, every
shared caller (index `i > 0`) of a deduplicated exchange receives an
independent deep copy of the response: a value-equal message held by the
fresh instance `fb + i`, distinct from the original caller's instance and
from every other caller's fresh instance; the original caller (index 0)
receives the work's own instance uncopied.  (When the work completes with
an error, no copy is made — see the counterexample.) -/
theorem C1_shared_copy (mr : MsgRef) (rtt fb n i : Nat)
    (hi : i < n) (h0 : 0 < i) (hfb : mr.ref < fb) :
    (exchangeCallers n (some mr, rtt, none) fb).getD i (none, 0, none)
        = (some ⟨mr.val, fb + i⟩, rtt, none) ∧
    (exchangeCallers n (some mr, rtt, none) fb).getD 0 (none, 0, none)
        = (some mr, rtt, none) ∧
    fb + i ≠ mr.ref ∧
    (∀ j, j ≠ i → fb + j ≠ fb + i) := by
  have hbne : (i != 0) = true := by
    simp only [bne_iff_ne]
    omega
  refine ⟨?_, ?_, by omega, fun j hj => by omega⟩
  · rw [exchangeCallers, getD_map_range _ n i _ hi]
    simp [exchangePost, hbne, msgCopy]
  · rw [exchangeCallers, getD_map_range _ n 0 _ (by omega)]
    simp [exchangePost]

/-- C1, witness: two callers, fresh instances from 2. -/
theorem C1_shared_copy_witness :
    (exchangeCallers 2 (some ⟨⟨[], none⟩, 0⟩, 7, none) 2).getD 1 (none, 0, none)
        = (some ⟨⟨[], none⟩, 2 + 1⟩, 7, none) ∧
    (exchangeCallers 2 (some ⟨⟨[], none⟩, 0⟩, 7, none) 2).getD 0 (none, 0, none)
        = (some ⟨⟨[], none⟩, 0⟩, 7, none) ∧
    2 + 1 ≠ 0 ∧ (∀ j, j ≠ 1 → 2 + j ≠ 2 + 1) :=
  C1_shared_copy ⟨⟨[], none⟩, 0⟩ 7 2 2 1 (by decide) (by decide) (by decide)

/-- C8: the deduplication query key built by `Client.Exchange` is the
concatenation of the first question's name, the symbolic name of its type
(placeholder "nop" when the `TypeToString` table has no entry), and the
symbolic name of its class (placeholder "nop" when the `ClassToString`
table has no entry); and messages agreeing on their first question
produce the same key whatever their remaining questions and TSIG fields,
so they are presented to the coordinator as duplicates. -/
theorem C8_query_key (tts cts : Nat → Option String) (q : Question)
    (l1 l2 : List Question) (t1 t2 : Option String) :
    exchangeKey tts cts ⟨q :: l1, t1⟩
        = KeyResult.key (q.name ++ ((tts q.qtype).getD "nop") ++ ((cts q.qclass).getD "nop")) ∧
    exchangeKey tts cts ⟨q :: l1, t1⟩ = exchangeKey tts cts ⟨q :: l2, t2⟩ :=
  ⟨rfl, rfl⟩

/-- C9: with `SingleInflight` unset no query key is computed; with it set
the key computation runs unconditionally, and it reaches the
index-out-of-range outcome exactly when the question section is empty —
a non-empty question section is an unstated precondition of the
deduplicated path of `Client.Exchange`. -/
theorem C9_empty_question_panics (tts cts : Nat → Option String) (m : Msg) :
    clientExchangeEntry false tts cts m = none ∧
    clientExchangeEntry true tts cts m = some (exchangeKey tts cts m) ∧
    (exchangeKey tts cts m = KeyResult.panic ↔ m.question = []) := by
  refine ⟨rfl, rfl, ?_⟩
  rcases m with ⟨_ | ⟨q, qs⟩, t⟩
  · simp [exchangeKey]
  · simp [exchangeKey]
